import Mathlib

/-!
Verification of the `config host` subcommand of the mc repository
(`cmd/config-host-main.go`): host-alias management (`add`, `remove`, `list`)
over a persisted Hosts mapping, with text and JSON rendering.

The embedding is a shallow one: the persisted configuration document is
passed and returned explicitly (the Go code loads it with `loadMcConfig`
and stores it with `saveMcConfig`, both external collaborators of this
slice), the Go `map[string]hostConfigV8` is modelled as an association
list with map semantics, and a command invocation is a pure function from
the command line plus the loaded Hosts mapping to a result and the
persisted Hosts mapping.  `fatalIf` (process exit with an error) and
`cli.ShowCommandHelpAndExit` are modelled as abnormal results that leave
the persisted mapping untouched, which is what they do: the process dies
before any save.  Go string comparison, `fmt` width/precision formatting
and `strings.TrimSpace` are modelled character-wise.
-/

/-- Model of the Go struct `hostConfigV8`: one host record of the
configuration document. -/
structure hostConfigV8 where
  URL : String
  AccessKey : String
  SecretKey : String
  API : String
deriving DecidableEq

/-- Model of the Go struct `hostMessage` (`cmd/config-host-main.go` lines
76-84).  The unexported field `op` selects the text rendering; the default
values model Go zero values of omitted struct literal fields. -/
structure hostMessage where
  op : String := ""
  Status : String := ""
  Alias : String := ""
  URL : String := ""
  AccessKey : String := ""
  SecretKey : String := ""
  API : String := ""
deriving DecidableEq

/-- The persisted `Hosts` mapping of the configuration document,
modelled as an association list from alias to host record. -/
abbrev Hosts := List (String × hostConfigV8)

/-- Outcome of one command invocation: help text plus exit code 1
(`cli.ShowCommandHelpAndExit`), a fatal error (`fatalIf`, process exits
non-zero with the given message), or success with the printed messages. -/
inductive CmdResult where
  | helpExit : CmdResult
  | fatal : String → CmdResult
  | ok : List hostMessage → CmdResult
deriving DecidableEq

/-- Lookup in an association list, as reading a Go map: first (and for a
well-formed map only) binding of the key. -/
def mapLookup {α : Type} (k : String) : List (String × α) → Option α
  | [] => none
  | kv :: rest => if kv.1 = k then some kv.2 else mapLookup k rest

/-- Model of Go `delete(m, k)`: every binding of `k` is removed. -/
def mapDelete (k : String) : Hosts → Hosts
  | [] => []
  | kv :: rest => if kv.1 = k then mapDelete k rest else kv :: mapDelete k rest

/-- Model of Go map assignment `m[k] = v`: the binding of `k` is replaced
by `v`; every other binding is untouched. -/
def mapInsert (k : String) (v : hostConfigV8) (m : Hosts) : Hosts :=
  mapDelete k m ++ [(k, v)]

/-- Byte/character-wise lexicographic strict order on character lists:
the comparison Go performs for `string < string`. -/
def charListLt : List Char → List Char → Bool
  | [], [] => false
  | [], _ :: _ => true
  | _ :: _, [] => false
  | a :: as, b :: bs => if a < b then true else if b < a then false else charListLt as bs

/-- Model of the comparator of the `sort.Interface` instance `byAlias`
(`cmd/config-host-main.go` lines 269-274): `Less(i, j) = d[i].Alias < d[j].Alias`. -/
def lessByAlias (a b : hostMessage) : Bool :=
  charListLt a.Alias.data b.Alias.data

/-- Model of Go `fmt.Sprintf` with verb `%-w.ws` applied to a string:
truncate to at most `w` characters, then pad with spaces on the right
(the `-` flag left-justifies) up to width `w`. -/
def padTrunc (w : Nat) (s : String) : String :=
  ⟨s.data.take w ++ List.replicate (w - (s.data.take w).length) ' '⟩

/-- Model of Go `fmt.Sprintf` with verb `%.ws` applied to a string:
truncate to at most `w` characters, no padding. -/
def truncStr (w : Nat) (s : String) : String :=
  ⟨s.data.take w⟩

/-- Character-list core of `strings.TrimSpace`: drop whitespace from the
front, then from the back. -/
def trimList (l : List Char) : List Char :=
  ((l.dropWhile Char.isWhitespace).reverse.dropWhile Char.isWhitespace).reverse

/-- Model of Go `strings.TrimSpace`: strips leading and trailing
whitespace. -/
def trimSpace (s : String) : String :=
  ⟨trimList s.data⟩

/-- Modelled from the spec: `isValidAlias` lives outside this repository
slice (only its callers are in `src/`).  Per §4.1 and §3 an alias is
non-empty and drawn from a restricted charset, alphanumeric plus limited
punctuation. -/
def isValidAlias (s : String) : Bool :=
  s != "" && s.data.all fun c => c.isAlphanum || c = '-' || c = '_' || c = '.'

/-- Modelled from the spec: `isValidHostURL` lives outside this repository
slice.  Per §4.1 the URL must be an absolute HTTP or HTTPS URL. -/
def isValidHostURL (s : String) : Bool :=
  ("http://".data.isPrefixOf s.data || "https://".data.isPrefixOf s.data)
    && s != "http://" && s != "https://"

/-- Modelled from the spec: `isValidAccessKey` lives outside this
repository slice.  Per §4.1 access keys satisfy length and charset
constraints of the storage API credential format: 5 to 20 characters,
alphanumeric. -/
def isValidAccessKey (s : String) : Bool :=
  decide (5 ≤ s.data.length) && decide (s.data.length ≤ 20)
    && s.data.all fun c => c.isAlphanum

/-- Modelled from the spec: `isValidSecretKey` lives outside this
repository slice.  Per §4.1 secret keys satisfy the storage API credential
length constraint: 8 to 40 characters. -/
def isValidSecretKey (s : String) : Bool :=
  decide (8 ≤ s.data.length) && decide (s.data.length ≤ 40)

/-- Modelled from the spec: `isValidAPI` lives outside this repository
slice.  Per §4.1 the API signature version must be one of the enumerated
set S3v4, S3v2. -/
def isValidAPI (s : String) : Bool :=
  s == "S3v4" || s == "S3v2"

/-- Model of the method `hostMessage.String` (lines 87-105); named
`render` here because a declaration `hostMessage.String` would shadow the
`String` type inside its own namespace.  `console.Colorize` only wraps
its text in terminal color tags selected by the global theme; the model
renders the bare text. -/
def hostMessage.render (h : hostMessage) : String :=
  if h.op = "list" then
    let message := h.Alias ++ ": " ++ padTrunc 30 h.URL
    if h.AccessKey ≠ "" ∨ h.SecretKey ≠ "" then
      message ++ "  " ++ padTrunc 20 h.AccessKey ++ "  " ++ padTrunc 40 h.SecretKey
        ++ "  " ++ truncStr 20 h.API
    else
      message
  else if h.op = "remove" then
    "Removed ‘" ++ h.Alias ++ "’ successfully."
  else if h.op = "add" then
    "Added ‘" ++ h.Alias ++ "’ successfully."
  else
    ""

/-- Model of the method `hostMessage.JSON` (lines 108-114) as the ordered
field list of the marshalled object.  `json.Marshal` skips the unexported
field `op`, always emits `status` (set to "success" first), `alias` and
`URL`, and emits the `omitempty` fields `accessKey`, `secretKey`, `api`
only when non-empty. -/
def hostMessage.JSON (h : hostMessage) : List (String × String) :=
  [("status", "success"), ("alias", h.Alias), ("URL", h.URL)]
    ++ (if h.AccessKey = "" then [] else [("accessKey", h.AccessKey)])
    ++ (if h.SecretKey = "" then [] else [("secretKey", h.SecretKey)])
    ++ (if h.API = "" then [] else [("api", h.API)])

/-- Model of `checkConfigHostAddSyntax` (lines 135-172): argument-count
check, then the five field validations, in source order; `some msg` is the
`fatalIf` message, `none` means the checks passed.  `Args.Get` past the
end yields "". -/
def checkConfigHostAddCmd (tailArgs : List String) : Option String :=
  if tailArgs.length < 4 ∨ 5 < tailArgs.length then
    some "Incorrect number of arguments for host add command."
  else if ¬ isValidAlias (tailArgs.getD 0 "") then
    some ("Invalid alias ‘" ++ tailArgs.getD 0 "" ++ "’.")
  else if ¬ isValidHostURL (tailArgs.getD 1 "") then
    some ("Invalid URL ‘" ++ tailArgs.getD 1 "" ++ "’.")
  else if ¬ isValidAccessKey (tailArgs.getD 2 "") then
    some ("Invalid access key ‘" ++ tailArgs.getD 2 "" ++ "’.")
  else if ¬ isValidSecretKey (tailArgs.getD 3 "") then
    some ("Invalid secret key ‘" ++ tailArgs.getD 3 "" ++ "’.")
  else if tailArgs.getD 4 "" ≠ "" ∧ ¬ isValidAPI (tailArgs.getD 4 "") then
    some "Unrecognized API signature. Valid options are ‘[S3v4, S3v2]’."
  else
    none

/-- Model of `checkConfigHostRemoveSyntax` (lines 175-187). -/
def checkConfigHostRemoveCmd (tailArgs : List String) : Option String :=
  if tailArgs.length ≠ 1 then
    some "Incorrect number of arguments for remove host command."
  else if ¬ isValidAlias (tailArgs.getD 0 "") then
    some ("Invalid alias ‘" ++ tailArgs.getD 0 "" ++ "’.")
  else
    none

/-- Model of `addHost` (lines 235-253): insert/overwrite the binding and
return the saved mapping together with the printed message. -/
def addHost (aliasStr : String) (hostCfgV8 : hostConfigV8) (hosts : Hosts) :
    Hosts × hostMessage :=
  (mapInsert aliasStr hostCfgV8 hosts,
   { op := "add", Alias := aliasStr, URL := hostCfgV8.URL,
     AccessKey := hostCfgV8.AccessKey, SecretKey := hostCfgV8.SecretKey,
     API := hostCfgV8.API })

/-- Model of `removeHost` (lines 256-267): delete the binding (a no-op if
absent) and return the saved mapping together with the printed message. -/
def removeHost (aliasStr : String) (hosts : Hosts) : Hosts × hostMessage :=
  (mapDelete aliasStr hosts, { op := "remove", Alias := aliasStr })

/-- One step of the insertion sort used to model `sort.Sort(byAlias(hosts))`:
place `m` before the first element it is `Less` than. -/
def insertByAlias (m : hostMessage) : List hostMessage → List hostMessage
  | [] => [m]
  | n :: rest => if lessByAlias m n then m :: n :: rest else n :: insertByAlias m rest

/-- Model of `sort.Sort(byAlias(hosts))` (line 301): a comparison sort
whose postcondition is exactly that no later element is `Less` than an
earlier one. -/
def sortByAlias : List hostMessage → List hostMessage
  | [] => []
  | m :: rest => insertByAlias m (sortByAlias rest)

/-- The `maxAlias` computation of `listHosts` (lines 281-286): maximum
alias length over all keys of the mapping, starting from 0. -/
def maxAliasLen (hosts : Hosts) : Nat :=
  hosts.foldl (fun acc kv => max acc kv.1.length) 0

/-- The message `listHosts` builds for one mapping entry (lines 289-298). -/
def toHostMessage (kv : String × hostConfigV8) : hostMessage :=
  { op := "list", Alias := kv.1, URL := kv.2.URL, AccessKey := kv.2.AccessKey,
    SecretKey := kv.2.SecretKey, API := kv.2.API }

/-- The sorted message list `listHosts` produces (lines 288-301), before
the per-line alias padding of the display loop. -/
def listHosts (hosts : Hosts) : List hostMessage :=
  sortByAlias (hosts.map toHostMessage)

/-- The messages `listHosts` hands to `printMsg` (lines 304-308): each
alias formatted with `%-*.*s` at width `maxAlias` for column alignment. -/
def listHostsPrinted (hosts : Hosts) : List hostMessage :=
  (listHosts hosts).map fun h => { h with Alias := padTrunc (maxAliasLen hosts) h.Alias }

/-- Model of `mainConfigHost` (lines 189-232) together with
`checkConfigHostSyntax` (lines 117-132): both switch on the first
positional argument stripped with `strings.TrimSpace`; a missing or
unrecognized verb shows help and exits 1; `add` and `remove` run their
argument checks (`fatalIf` on failure, before any load of the
configuration document) and then the operation on the loaded mapping.
The returned mapping is the persisted one: unchanged on every abnormal
path. -/
def mainConfigHost (args : List String) (hosts : Hosts) : CmdResult × Hosts :=
  match args with
  | [] => (CmdResult.helpExit, hosts)
  | first :: tailArgs =>
    let cmd := trimSpace first
    if cmd = "add" then
      match checkConfigHostAddCmd tailArgs with
      | some e => (CmdResult.fatal e, hosts)
      | none =>
        let api0 := tailArgs.getD 4 ""
        let r := addHost (tailArgs.getD 0 "")
          { URL := tailArgs.getD 1 "", AccessKey := tailArgs.getD 2 "",
            SecretKey := tailArgs.getD 3 "",
            API := if api0 = "" then "S3v4" else api0 } hosts
        (CmdResult.ok [r.2], r.1)
    else if cmd = "remove" then
      match checkConfigHostRemoveCmd tailArgs with
      | some e => (CmdResult.fatal e, hosts)
      | none =>
        let r := removeHost (tailArgs.getD 0 "") hosts
        (CmdResult.ok [r.2], r.1)
    else if cmd = "list" then
      (CmdResult.ok (listHostsPrinted hosts), hosts)
    else
      (CmdResult.helpExit, hosts)

/-- The padding that the specification words describe for the list
rendering, taken literally: spaces added on the LEFT of the alias up to
the target width.  Stated only to be compared against what the code
does. -/
def leftPad (w : Nat) (s : String) : String :=
  ⟨List.replicate (w - s.data.length) ' ' ++ s.data⟩

/-- The outcome asserted for an `add` followed by `list`: the invocation
succeeds printing the added record, and the listing holds exactly one
entry for the alias, carrying exactly the added fields. -/
def addListOutcome (aliasStr url ak sk apiVal : String) (r : CmdResult × Hosts) : Prop :=
  r.1 = CmdResult.ok
      [{ op := "add", Alias := aliasStr, URL := url, AccessKey := ak,
         SecretKey := sk, API := apiVal }] ∧
  (listHosts r.2).countP (fun m => m.Alias == aliasStr) = 1 ∧
  ({ op := "list", Alias := aliasStr, URL := url, AccessKey := ak, SecretKey := sk,
     API := apiVal } : hostMessage) ∈ listHosts r.2

/-- Concrete host record used by witness instances (credentials from the
command help text of the source file). -/
def cfgDemo : hostConfigV8 :=
  { URL := "https://s3.amazonaws.com", AccessKey := "BKIKJAA5BMMU2RHO6IBB",
    SecretKey := "V8f1CwQqAcwo80UEIJEjc5gVQUSSx5ohQ9GSrr12", API := "S3v4" }

/-- Concrete credential-free host record used by witness instances. -/
def cfgDemoNoCreds : hostConfigV8 :=
  { URL := "http://play.minio.io:9000", AccessKey := "", SecretKey := "", API := "" }

/-- Concrete Hosts mapping used by witness instances. -/
def demoHosts : Hosts := [("play", cfgDemoNoCreds), ("s3", cfgDemo)]

/-- Concrete Hosts mapping with aliases of different lengths, used to
exercise the alias-column padding. -/
def demoHostsPad : Hosts := [("a", cfgDemoNoCreds), ("bbb", cfgDemoNoCreds)]

/-! ### Association-list map lemmas -/

theorem mem_mapDelete {kv : String × hostConfigV8} {k : String} {m : Hosts}
    (h : kv ∈ mapDelete k m) : kv ∈ m ∧ kv.1 ≠ k := by
  induction m with
  | nil => simp [mapDelete] at h
  | cons kv0 rest ih =>
    by_cases h0 : kv0.1 = k
    · rw [mapDelete, if_pos h0] at h
      exact ⟨List.mem_cons_of_mem _ (ih h).1, (ih h).2⟩
    · rw [mapDelete, if_neg h0] at h
      rcases List.mem_cons.mp h with rfl | h1
      · exact ⟨List.mem_cons_self _ _, h0⟩
      · exact ⟨List.mem_cons_of_mem _ (ih h1).1, (ih h1).2⟩

theorem mapDelete_sublist (k : String) (m : Hosts) : List.Sublist (mapDelete k m) m := by
  induction m with
  | nil => simp [mapDelete]
  | cons kv0 rest ih =>
    by_cases h0 : kv0.1 = k
    · rw [mapDelete, if_pos h0]
      exact ih.cons kv0
    · rw [mapDelete, if_neg h0]
      exact ih.cons₂ kv0

theorem mapLookup_mapDelete_self (k : String) (m : Hosts) :
    mapLookup k (mapDelete k m) = none := by
  induction m with
  | nil => rfl
  | cons kv0 rest ih =>
    by_cases h0 : kv0.1 = k
    · rw [mapDelete, if_pos h0]; exact ih
    · rw [mapDelete, if_neg h0, mapLookup, if_neg h0]; exact ih

theorem mapLookup_mapDelete_ne {k k' : String} (h : k' ≠ k) (m : Hosts) :
    mapLookup k' (mapDelete k m) = mapLookup k' m := by
  induction m with
  | nil => rfl
  | cons kv0 rest ih =>
    by_cases h0 : kv0.1 = k
    · have h1 : kv0.1 ≠ k' := h0 ▸ fun e => h e.symm
      rw [mapDelete, if_pos h0, mapLookup, if_neg h1]
      exact ih
    · rw [mapDelete, if_neg h0, mapLookup, mapLookup]
      by_cases h1 : kv0.1 = k'
      · rw [if_pos h1, if_pos h1]
      · rw [if_neg h1, if_neg h1]; exact ih

theorem mapLookup_append_of_none {α : Type} {k : String} {m₁ : List (String × α)}
    (m₂ : List (String × α)) (h : mapLookup k m₁ = none) :
    mapLookup k (m₁ ++ m₂) = mapLookup k m₂ := by
  induction m₁ with
  | nil => rfl
  | cons kv0 rest ih =>
    rw [mapLookup] at h
    by_cases h0 : kv0.1 = k
    · rw [if_pos h0] at h; exact absurd h (by simp)
    · rw [if_neg h0] at h
      rw [List.cons_append, mapLookup, if_neg h0]
      exact ih h

theorem mapLookup_mapInsert_self (k : String) (v : hostConfigV8) (m : Hosts) :
    mapLookup k (mapInsert k v m) = some v := by
  rw [mapInsert, mapLookup_append_of_none _ (mapLookup_mapDelete_self k m),
    mapLookup, if_pos rfl]

theorem mapLookup_append_of_some {α : Type} {k : String} {m₁ : List (String × α)}
    {v : α} (m₂ : List (String × α)) (h : mapLookup k m₁ = some v) :
    mapLookup k (m₁ ++ m₂) = some v := by
  induction m₁ with
  | nil => exact absurd h (by simp [mapLookup])
  | cons kv0 rest ih =>
    rw [mapLookup] at h
    rw [List.cons_append, mapLookup]
    by_cases h0 : kv0.1 = k
    · rw [if_pos h0] at h ⊢; exact h
    · rw [if_neg h0] at h ⊢; exact ih h

theorem mapLookup_mapInsert_ne {k k' : String} (h : k' ≠ k) (v : hostConfigV8)
    (m : Hosts) : mapLookup k' (mapInsert k v m) = mapLookup k' m := by
  rw [mapInsert, ← mapLookup_mapDelete_ne h m]
  cases hd : mapLookup k' (mapDelete k m) with
  | none =>
    rw [mapLookup_append_of_none _ hd, mapLookup, if_neg (fun e => h e.symm)]
    rfl
  | some v' =>
    rw [mapLookup_append_of_some _ hd]

theorem not_mem_keys_mapDelete (k : String) (m : Hosts) :
    k ∉ (mapDelete k m).map fun kv => kv.1 := by
  intro hmem
  rcases List.mem_map.mp hmem with ⟨kv, hkv, hk⟩
  exact (mem_mapDelete hkv).2 hk

theorem mapInsert_keys_nodup (k : String) (v : hostConfigV8) {m : Hosts}
    (h : (m.map fun kv => kv.1).Nodup) :
    ((mapInsert k v m).map fun kv => kv.1).Nodup := by
  rw [mapInsert, List.map_append]
  have hdel : ((mapDelete k m).map fun kv => kv.1).Nodup :=
    h.sublist ((mapDelete_sublist k m).map _)
  rw [List.nodup_append]
  refine ⟨hdel, List.nodup_singleton _, ?_⟩
  intro a ha hb
  rw [List.map_singleton, List.mem_singleton] at hb
  rw [hb] at ha
  exact not_mem_keys_mapDelete k m ha

/-! ### Lexicographic order lemmas for `charListLt` -/

theorem charListLt_asymm {l₁ l₂ : List Char} (h : charListLt l₁ l₂ = true) :
    charListLt l₂ l₁ = false := by
  induction l₁ generalizing l₂ with
  | nil =>
    cases l₂ with
    | nil => simp [charListLt] at h
    | cons b bs => simp [charListLt]
  | cons a as ih =>
    cases l₂ with
    | nil => simp [charListLt] at h
    | cons b bs =>
      rw [charListLt] at h ⊢
      by_cases hab : a < b
      · rw [if_neg (lt_asymm hab), if_pos hab]
      · by_cases hba : b < a
        · rw [if_neg hab, if_pos hba] at h
          exact absurd h (by simp)
        · rw [if_neg hab, if_neg hba] at h
          rw [if_neg hba, if_neg hab]
          exact ih h

theorem charListLt_trans {l₁ l₂ l₃ : List Char} (h₁ : charListLt l₁ l₂ = true)
    (h₂ : charListLt l₂ l₃ = true) : charListLt l₁ l₃ = true := by
  induction l₁ generalizing l₂ l₃ with
  | nil =>
    cases l₃ with
    | nil =>
      cases l₂ with
      | nil => simp [charListLt] at h₁
      | cons b bs => simp [charListLt] at h₂
    | cons c cs => simp [charListLt]
  | cons a as ih =>
    cases l₂ with
    | nil => simp [charListLt] at h₁
    | cons b bs =>
      cases l₃ with
      | nil => simp [charListLt] at h₂
      | cons c cs =>
        rw [charListLt] at h₁ h₂ ⊢
        by_cases hab : a < b
        · by_cases hbc : b < c
          · rw [if_pos (lt_trans hab hbc)]
          · by_cases hcb : c < b
            · rw [if_neg hbc, if_pos hcb] at h₂
              exact absurd h₂ (by simp)
            · have hbc' : b = c := le_antisymm (not_lt.mp hcb) (not_lt.mp hbc)
              rw [if_pos (hbc' ▸ hab)]
        · by_cases hba : b < a
          · rw [if_neg hab, if_pos hba] at h₁
            exact absurd h₁ (by simp)
          · have hab' : a = b := le_antisymm (not_lt.mp hba) (not_lt.mp hab)
            rw [if_neg hab, if_neg hba] at h₁
            by_cases hbc : b < c
            · rw [if_pos (hab' ▸ hbc)]
            · by_cases hcb : c < b
              · rw [if_neg hbc, if_pos hcb] at h₂
                exact absurd h₂ (by simp)
              · rw [if_neg hbc, if_neg hcb] at h₂
                rw [if_neg (hab' ▸ hbc), if_neg (hab' ▸ hcb)]
                exact ih h₁ h₂

theorem charListLt_eq_of_both_false {l₁ l₂ : List Char}
    (h₁ : charListLt l₁ l₂ = false) (h₂ : charListLt l₂ l₁ = false) : l₁ = l₂ := by
  induction l₁ generalizing l₂ with
  | nil =>
    cases l₂ with
    | nil => rfl
    | cons b bs => simp [charListLt] at h₁
  | cons a as ih =>
    cases l₂ with
    | nil => simp [charListLt] at h₂
    | cons b bs =>
      rw [charListLt] at h₁ h₂
      by_cases hab : a < b
      · rw [if_pos hab] at h₁
        exact absurd h₁ (by simp)
      · by_cases hba : b < a
        · rw [if_pos hba] at h₂
          exact absurd h₂ (by simp)
        · have hab' : a = b := le_antisymm (not_lt.mp hba) (not_lt.mp hab)
          rw [if_neg hab, if_neg hba] at h₁
          rw [if_neg hba, if_neg hab] at h₂
          rw [hab', ih h₁ h₂]

/-! ### Sortedness and permutation facts for `sortByAlias` -/

theorem insertByAlias_perm (m : hostMessage) (l : List hostMessage) :
    List.Perm (insertByAlias m l) (m :: l) := by
  induction l with
  | nil => exact List.Perm.refl _
  | cons n rest ih =>
    by_cases h : lessByAlias m n
    · rw [insertByAlias, if_pos h]
    · rw [insertByAlias, if_neg h]
      exact (ih.cons n).trans (List.Perm.swap m n rest)

theorem sortByAlias_perm (l : List hostMessage) :
    List.Perm (sortByAlias l) l := by
  induction l with
  | nil => exact List.Perm.refl _
  | cons m rest ih =>
    exact (insertByAlias_perm m (sortByAlias rest)).trans (ih.cons m)

theorem insertByAlias_sorted {l : List hostMessage} (m : hostMessage)
    (h : l.Pairwise fun a b => lessByAlias b a = false) :
    (insertByAlias m l).Pairwise fun a b => lessByAlias b a = false := by
  induction l with
  | nil => simp [insertByAlias]
  | cons n rest ih =>
    rw [List.pairwise_cons] at h
    obtain ⟨hn, hrest⟩ := h
    by_cases hmn : lessByAlias m n
    · rw [insertByAlias, if_pos hmn, List.pairwise_cons]
      refine ⟨?_, List.pairwise_cons.mpr ⟨hn, hrest⟩⟩
      intro y hy
      rcases List.mem_cons.mp hy with rfl | hy'
      · exact charListLt_asymm hmn
      · by_contra hc
        have hym : lessByAlias y m = true := by
          cases hb : lessByAlias y m with
          | false => exact absurd hb hc
          | true => rfl
        have hyn := hn y hy'
        rw [lessByAlias] at hyn
        exact absurd (charListLt_trans hym hmn) (by simp [hyn])
    · rw [insertByAlias, if_neg hmn, List.pairwise_cons]
      refine ⟨?_, ih hrest⟩
      intro y hy
      rcases List.mem_cons.mp ((insertByAlias_perm m rest).mem_iff.mp hy) with rfl | hy'
      · exact Bool.not_eq_true _ ▸ hmn
      · exact hn y hy'

theorem sortByAlias_sorted (l : List hostMessage) :
    (sortByAlias l).Pairwise fun a b => lessByAlias b a = false := by
  induction l with
  | nil => simp [sortByAlias]
  | cons m rest ih => exact insertByAlias_sorted m ih

/-! ### Trimming, maximum alias length, and padding lemmas -/

theorem dropWhile_head_false {α : Type} {p : α → Bool} {l : List α} {b : α}
    {t : List α} (h : l.dropWhile p = b :: t) : p b = false := by
  induction l with
  | nil => simp [List.dropWhile] at h
  | cons a as ih =>
    rw [List.dropWhile_cons] at h
    by_cases ha : p a = true
    · rw [if_pos ha] at h
      exact ih h
    · rw [if_neg ha] at h
      injection h with h1 h2
      subst h1
      simpa using ha

theorem trimList_eq_rdropWhile (l : List Char) :
    trimList l = List.rdropWhile Char.isWhitespace (l.dropWhile Char.isWhitespace) := rfl

theorem trimList_idem (l : List Char) : trimList (trimList l) = trimList l := by
  rw [trimList_eq_rdropWhile, trimList_eq_rdropWhile]
  have h1 : (List.rdropWhile Char.isWhitespace (l.dropWhile Char.isWhitespace)).dropWhile
      Char.isWhitespace = List.rdropWhile Char.isWhitespace (l.dropWhile Char.isWhitespace) := by
    cases hr : List.rdropWhile Char.isWhitespace (l.dropWhile Char.isWhitespace) with
    | nil => rfl
    | cons b t =>
      obtain ⟨u, hu⟩ := hr ▸ List.rdropWhile_prefix Char.isWhitespace
        (l.dropWhile Char.isWhitespace)
      have hb : Char.isWhitespace b = false :=
        dropWhile_head_false (l := l) (List.cons_append b t u ▸ hu).symm
      rw [List.dropWhile_cons, if_neg (by simp [hb])]
  rw [h1, List.rdropWhile_idempotent]

theorem trimSpace_idem (s : String) : trimSpace (trimSpace s) = trimSpace s :=
  congrArg String.mk (trimList_idem s.data)

theorem le_foldl_max_init (l : Hosts) :
    ∀ acc : Nat, acc ≤ l.foldl (fun a kv => max a kv.1.length) acc := by
  induction l with
  | nil => intro acc; exact le_refl acc
  | cons kv rest ih =>
    intro acc
    rw [List.foldl_cons]
    exact le_trans (le_max_left _ _) (ih _)

theorem mem_le_foldl_max {kv : String × hostConfigV8} {l : Hosts} (h : kv ∈ l) :
    ∀ acc : Nat, kv.1.length ≤ l.foldl (fun a kv => max a kv.1.length) acc := by
  induction l with
  | nil => simp at h
  | cons kv0 rest ih =>
    intro acc
    rw [List.foldl_cons]
    rcases List.mem_cons.mp h with rfl | h1
    · exact le_trans (le_max_right _ _) (le_foldl_max_init rest _)
    · exact ih h1 _

theorem length_le_maxAliasLen {kv : String × hostConfigV8} {hosts : Hosts}
    (h : kv ∈ hosts) : kv.1.length ≤ maxAliasLen hosts :=
  mem_le_foldl_max h 0

theorem padTrunc_of_le {w : Nat} {s : String} (h : s.data.length ≤ w) :
    padTrunc w s = s ++ String.mk (List.replicate (w - s.length) ' ') := by
  obtain ⟨d⟩ := s
  have h1 : d.length ≤ w := h
  rw [padTrunc]
  show (⟨d.take w ++ List.replicate (w - (d.take w).length) ' '⟩ : String)
    = ⟨d ++ List.replicate (w - d.length) ' '⟩
  rw [List.take_of_length_le h1]

theorem padTrunc_length_of_le {w : Nat} {s : String} (h : s.data.length ≤ w) :
    (padTrunc w s).length = w := by
  obtain ⟨d⟩ := s
  have h1 : d.length ≤ w := h
  rw [padTrunc]
  show (d.take w ++ List.replicate (w - (d.take w).length) ' ').length = w
  rw [List.take_of_length_le h1, List.length_append, List.length_replicate]
  omega

/-! ### Computation lemmas for the add path -/

theorem mapDelete_of_lookup_none : ∀ {m : Hosts} {k : String},
    mapLookup k m = none → mapDelete k m = m := by
  intro m
  induction m with
  | nil => intro k _; rfl
  | cons kv rest ih =>
    intro k h
    rw [mapLookup] at h
    by_cases h0 : kv.1 = k
    · rw [if_pos h0] at h
      exact absurd h (by simp)
    · rw [if_neg h0] at h
      rw [mapDelete, if_neg h0, ih h]

theorem checkAdd_valid4 {aliasStr url ak sk : String}
    (hA : isValidAlias aliasStr = true) (hU : isValidHostURL url = true)
    (hK : isValidAccessKey ak = true) (hS : isValidSecretKey sk = true) :
    checkConfigHostAddCmd [aliasStr, url, ak, sk] = none := by
  rw [checkConfigHostAddCmd]
  simp only [List.getD_cons_succ, List.getD_cons_zero, List.length_cons, List.length_nil]
  rw [if_neg (by omega), if_neg (by simp [hA]), if_neg (by simp [hU]),
    if_neg (by simp [hK]), if_neg (by simp [hS]), if_neg (by simp)]

theorem checkAdd_valid5 {aliasStr url ak sk api : String}
    (hA : isValidAlias aliasStr = true) (hU : isValidHostURL url = true)
    (hK : isValidAccessKey ak = true) (hS : isValidSecretKey sk = true)
    (hAPI : api = "" ∨ isValidAPI api = true) :
    checkConfigHostAddCmd [aliasStr, url, ak, sk, api] = none := by
  rw [checkConfigHostAddCmd]
  simp only [List.getD_cons_succ, List.getD_cons_zero, List.length_cons, List.length_nil]
  rw [if_neg (by omega), if_neg (by simp [hA]), if_neg (by simp [hU]),
    if_neg (by simp [hK]), if_neg (by simp [hS])]
  rcases hAPI with he | hv
  · rw [if_neg (by simp [he])]
  · rw [if_neg (by simp [hv])]

theorem mainConfigHost_add_eq (tailArgs : List String) (hosts : Hosts)
    (hchk : checkConfigHostAddCmd tailArgs = none) :
    mainConfigHost ("add" :: tailArgs) hosts
      = (CmdResult.ok [(addHost (tailArgs.getD 0 "")
            { URL := tailArgs.getD 1 "", AccessKey := tailArgs.getD 2 "",
              SecretKey := tailArgs.getD 3 "",
              API := if tailArgs.getD 4 "" = "" then "S3v4" else tailArgs.getD 4 "" }
            hosts).2],
         (addHost (tailArgs.getD 0 "")
            { URL := tailArgs.getD 1 "", AccessKey := tailArgs.getD 2 "",
              SecretKey := tailArgs.getD 3 "",
              API := if tailArgs.getD 4 "" = "" then "S3v4" else tailArgs.getD 4 "" }
            hosts).1) := by
  simp only [mainConfigHost]
  rw [show trimSpace "add" = "add" from by decide, if_pos rfl, hchk]

theorem listHosts_mapInsert_unique (k : String) (v : hostConfigV8) (hosts : Hosts) :
    (listHosts (mapInsert k v hosts)).countP (fun m => m.Alias == k) = 1 ∧
    toHostMessage (k, v) ∈ listHosts (mapInsert k v hosts) := by
  constructor
  · rw [listHosts, (sortByAlias_perm _).countP_eq, List.countP_map, mapInsert,
      List.countP_append]
    have h0 : (mapDelete k hosts).countP ((fun m => m.Alias == k) ∘ toHostMessage) = 0 := by
      rw [List.countP_eq_zero]
      intro kv hkv
      have hne := (mem_mapDelete hkv).2
      simp [toHostMessage, Function.comp, hne]
    rw [h0]
    simp [toHostMessage, Function.comp]
  · rw [listHosts, (sortByAlias_perm _).mem_iff]
    exact List.mem_map_of_mem _
      (by rw [mapInsert]; exact List.mem_append_right _ (List.mem_singleton.mpr rfl))

/-! ### Claim theorems -/

/-- Claim C3: for every alias not present in the Hosts mapping,
`removeHost` succeeds, emits the removal success message, and the
persisted Hosts mapping equals the loaded one: the document is
unchanged. -/
theorem removeHost_absent_noop (aliasStr : String) (hosts : Hosts)
    (h : mapLookup aliasStr hosts = none) :
    removeHost aliasStr hosts = (hosts, { op := "remove", Alias := aliasStr }) ∧
    (removeHost aliasStr hosts).2.render = "Removed ‘" ++ aliasStr ++ "’ successfully." := by
  constructor
  · rw [removeHost, mapDelete_of_lookup_none h]
  · rw [removeHost]
    show hostMessage.render { op := "remove", Alias := aliasStr } = _
    simp only [hostMessage.render]
    rw [if_neg (by decide), if_pos trivial]

/-- Witness for C3 at a concrete input: removing the absent alias `gone`
from the demo mapping returns the mapping untouched with the success
message. -/
theorem removeHost_absent_noop_witness :
    removeHost "gone" demoHosts = (demoHosts, { op := "remove", Alias := "gone" }) ∧
    (removeHost "gone" demoHosts).2.render = "Removed ‘gone’ successfully." :=
  removeHost_absent_noop "gone" demoHosts (by decide)

/-- Claim C4: `addHost` binds the alias to exactly the given record
(silently overwriting any previous binding), leaves every other alias
binding unchanged, and preserves uniqueness of alias keys. -/
theorem addHost_upsert_frame (aliasStr : String) (cfg : hostConfigV8) (hosts : Hosts) :
    mapLookup aliasStr (addHost aliasStr cfg hosts).1 = some cfg ∧
    (∀ k : String, k ≠ aliasStr →
      mapLookup k (addHost aliasStr cfg hosts).1 = mapLookup k hosts) ∧
    ((hosts.map fun kv => kv.1).Nodup →
      ((addHost aliasStr cfg hosts).1.map fun kv => kv.1).Nodup) :=
  ⟨mapLookup_mapInsert_self aliasStr cfg hosts,
   fun _ hk => mapLookup_mapInsert_ne hk cfg hosts,
   fun hnd => mapInsert_keys_nodup aliasStr cfg hnd⟩

/-- Witness for C4 at a concrete input: overwriting the existing alias
`s3` with a credential-free record while the `play` binding is
untouched and keys stay unique. -/
theorem addHost_upsert_frame_witness :
    mapLookup "s3" (addHost "s3" cfgDemoNoCreds demoHosts).1 = some cfgDemoNoCreds ∧
    mapLookup "play" (addHost "s3" cfgDemoNoCreds demoHosts).1 = mapLookup "play" demoHosts ∧
    ((addHost "s3" cfgDemoNoCreds demoHosts).1.map fun kv => kv.1).Nodup := by
  have h := addHost_upsert_frame "s3" cfgDemoNoCreds demoHosts
  exact ⟨h.1, h.2.1 "play" (by decide), h.2.2 (by decide)⟩

/-- Claim C7: the `add` verb with a trailing-argument count other than 4
or 5, and the `remove` verb with a count other than 1, die with the
fatal argument-count error before any operation touches the mapping. -/
theorem add_remove_arg_count_fatal (tailArgs : List String) (hosts : Hosts) :
    ((tailArgs.length < 4 ∨ 5 < tailArgs.length) →
      mainConfigHost ("add" :: tailArgs) hosts
        = (CmdResult.fatal "Incorrect number of arguments for host add command.", hosts)) ∧
    (tailArgs.length ≠ 1 →
      mainConfigHost ("remove" :: tailArgs) hosts
        = (CmdResult.fatal "Incorrect number of arguments for remove host command.", hosts)) := by
  constructor
  · intro h
    have hchk : checkConfigHostAddCmd tailArgs
        = some "Incorrect number of arguments for host add command." := by
      rw [checkConfigHostAddCmd, if_pos h]
    simp only [mainConfigHost]
    rw [show trimSpace "add" = "add" from by decide, if_pos rfl, hchk]
  · intro h
    have hchk : checkConfigHostRemoveCmd tailArgs
        = some "Incorrect number of arguments for remove host command." := by
      rw [checkConfigHostRemoveCmd, if_pos h]
    simp only [mainConfigHost]
    rw [show trimSpace "remove" = "remove" from by decide, if_neg (by decide),
      if_pos rfl, hchk]

/-- Witness for C7 at a concrete input: two trailing arguments make both
`add` and `remove` die with their argument-count errors, mapping
untouched. -/
theorem add_remove_arg_count_fatal_witness :
    mainConfigHost ["add", "x", "y"] demoHosts
      = (CmdResult.fatal "Incorrect number of arguments for host add command.", demoHosts) ∧
    mainConfigHost ["remove", "x", "y"] demoHosts
      = (CmdResult.fatal "Incorrect number of arguments for remove host command.", demoHosts) :=
  ⟨(add_remove_arg_count_fatal ["x", "y"] demoHosts).1 (Or.inl (by decide)),
   (add_remove_arg_count_fatal ["x", "y"] demoHosts).2 (by decide)⟩

/-- Claim C8: every JSON rendering carries `status` with value `success`
and always carries `alias` and `URL`, while `accessKey`, `secretKey` and
`api` are present exactly when the corresponding value is non-empty. -/
theorem JSON_field_presence (h : hostMessage) :
    mapLookup "status" h.JSON = some "success" ∧
    mapLookup "alias" h.JSON = some h.Alias ∧
    mapLookup "URL" h.JSON = some h.URL ∧
    mapLookup "accessKey" h.JSON = (if h.AccessKey = "" then none else some h.AccessKey) ∧
    mapLookup "secretKey" h.JSON = (if h.SecretKey = "" then none else some h.SecretKey) ∧
    mapLookup "api" h.JSON = (if h.API = "" then none else some h.API) := by
  by_cases hak : h.AccessKey = "" <;> by_cases hsk : h.SecretKey = "" <;>
    by_cases hapi : h.API = "" <;>
    simp [hostMessage.JSON, mapLookup, hak, hsk, hapi]

/-- Claim C2: an `add` invocation whose API argument is non-empty and
neither `S3v4` nor `S3v2` dies fatally during argument checking, before
the configuration document is loaded or modified: the persisted Hosts
mapping is returned unchanged. -/
theorem add_invalid_api_fatal (aliasStr url ak sk api : String) (hosts : Hosts)
    (hne : api ≠ "") (hbad : isValidAPI api = false) :
    ∃ e, mainConfigHost ["add", aliasStr, url, ak, sk, api] hosts
      = (CmdResult.fatal e, hosts) := by
  have hchk : ∃ e, checkConfigHostAddCmd [aliasStr, url, ak, sk, api] = some e := by
    rw [checkConfigHostAddCmd]
    simp only [List.getD_cons_succ, List.getD_cons_zero]
    split_ifs with h1 h2 h3 h4 h5 h6
    all_goals try exact ⟨_, rfl⟩
    all_goals exact ⟨"", absurd ⟨hne, by simp [hbad]⟩ h6⟩
  obtain ⟨e, he⟩ := hchk
  refine ⟨e, ?_⟩
  simp only [mainConfigHost]
  rw [show trimSpace "add" = "add" from by decide, if_pos rfl, he]

/-- Witness for C2 at a concrete input: the unrecognized API string
`S3v3` makes the add invocation die fatally with the demo mapping
untouched. -/
theorem add_invalid_api_fatal_witness :
    ∃ e, mainConfigHost ["add", "myphotos", "https://s3.amazonaws.com",
        "BKIKJAA5BMMU2RHO6IBB", "V8f1CwQqAcwo80UEIJEjc5gVQUSSx5ohQ9GSrr12", "S3v3"]
      demoHosts = (CmdResult.fatal e, demoHosts) :=
  add_invalid_api_fatal "myphotos" "https://s3.amazonaws.com" "BKIKJAA5BMMU2RHO6IBB"
    "V8f1CwQqAcwo80UEIJEjc5gVQUSSx5ohQ9GSrr12" "S3v3" demoHosts (by decide) (by decide)

/-- Claim C1: a valid `add` followed by `list` succeeds and the listing
holds exactly one entry for the alias, carrying exactly the given URL and
credentials, with the API field `S3v4` when the fifth argument is absent
and the supplied API when a valid one is given. -/
theorem add_then_list_unique_entry (aliasStr url ak sk : String) (hosts : Hosts)
    (hA : isValidAlias aliasStr = true) (hU : isValidHostURL url = true)
    (hK : isValidAccessKey ak = true) (hS : isValidSecretKey sk = true) :
    addListOutcome aliasStr url ak sk "S3v4"
      (mainConfigHost ["add", aliasStr, url, ak, sk] hosts) ∧
    ∀ api : String, isValidAPI api = true →
      addListOutcome aliasStr url ak sk api
        (mainConfigHost ["add", aliasStr, url, ak, sk, api] hosts) := by
  constructor
  · rw [mainConfigHost_add_eq [aliasStr, url, ak, sk] hosts (checkAdd_valid4 hA hU hK hS)]
    refine ⟨rfl, ?_, ?_⟩
    · exact (listHosts_mapInsert_unique aliasStr
        { URL := url, AccessKey := ak, SecretKey := sk, API := "S3v4" } hosts).1
    · exact (listHosts_mapInsert_unique aliasStr
        { URL := url, AccessKey := ak, SecretKey := sk, API := "S3v4" } hosts).2
  · intro api hAPI
    have hne : api ≠ "" := by
      intro he
      rw [he] at hAPI
      exact absurd hAPI (by decide)
    rw [mainConfigHost_add_eq [aliasStr, url, ak, sk, api] hosts
      (checkAdd_valid5 hA hU hK hS (Or.inr hAPI))]
    simp only [List.getD_cons_succ, List.getD_cons_zero]
    rw [if_neg hne]
    refine ⟨rfl, ?_, ?_⟩
    · exact (listHosts_mapInsert_unique aliasStr
        { URL := url, AccessKey := ak, SecretKey := sk, API := api } hosts).1
    · exact (listHosts_mapInsert_unique aliasStr
        { URL := url, AccessKey := ak, SecretKey := sk, API := api } hosts).2

/-- Witness for C1 at a concrete input: adding `myphotos` without and
with an explicit valid API to the demo mapping. -/
theorem add_then_list_unique_entry_witness :
    addListOutcome "myphotos" "https://s3.amazonaws.com" "BKIKJAA5BMMU2RHO6IBB"
      "V8f1CwQqAcwo80UEIJEjc5gVQUSSx5ohQ9GSrr12" "S3v4"
      (mainConfigHost ["add", "myphotos", "https://s3.amazonaws.com",
        "BKIKJAA5BMMU2RHO6IBB", "V8f1CwQqAcwo80UEIJEjc5gVQUSSx5ohQ9GSrr12"] demoHosts) ∧
    addListOutcome "myphotos" "https://s3.amazonaws.com" "BKIKJAA5BMMU2RHO6IBB"
      "V8f1CwQqAcwo80UEIJEjc5gVQUSSx5ohQ9GSrr12" "S3v2"
      (mainConfigHost ["add", "myphotos", "https://s3.amazonaws.com",
        "BKIKJAA5BMMU2RHO6IBB", "V8f1CwQqAcwo80UEIJEjc5gVQUSSx5ohQ9GSrr12", "S3v2"]
        demoHosts) := by
  have h := add_then_list_unique_entry "myphotos" "https://s3.amazonaws.com"
    "BKIKJAA5BMMU2RHO6IBB" "V8f1CwQqAcwo80UEIJEjc5gVQUSSx5ohQ9GSrr12" demoHosts
    (by decide) (by decide) (by decide) (by decide)
  exact ⟨h.1, h.2 "S3v2" (by decide)⟩

/-- Claim C5: for a Hosts mapping with unique alias keys (the map
invariant), the entries `list` produces are in strictly increasing
lexicographic alias order, whatever the order of the mapping. -/
theorem listHosts_sorted_strict (hosts : Hosts)
    (hnd : (hosts.map fun kv => kv.1).Nodup) :
    (listHosts hosts).Pairwise fun a b => lessByAlias a b = true := by
  have hsorted : (listHosts hosts).Pairwise fun a b => lessByAlias b a = false :=
    sortByAlias_sorted (hosts.map toHostMessage)
  have hperm : List.Perm (listHosts hosts) (hosts.map toHostMessage) :=
    sortByAlias_perm _
  have hkeys : ((listHosts hosts).map fun m => m.Alias).Nodup := by
    refine ((hperm.map fun m => m.Alias).nodup_iff).mpr ?_
    have hmm : ((hosts.map toHostMessage).map fun m => m.Alias)
        = hosts.map fun kv => kv.1 := by
      rw [List.map_map]
      rfl
    rw [hmm]
    exact hnd
  have hne : (listHosts hosts).Pairwise fun a b => a.Alias ≠ b.Alias :=
    List.pairwise_map.mp hkeys
  refine List.Pairwise.imp₂ ?_ hsorted hne
  intro a b hR hS
  cases hab : lessByAlias a b with
  | true => rfl
  | false =>
    rw [lessByAlias] at hab hR
    exact absurd (String.toList_inj.mp (charListLt_eq_of_both_false hab hR)) hS

/-- Witness for C5 at a concrete input: the demo mapping lists in
strictly increasing alias order. -/
theorem listHosts_sorted_strict_witness :
    (listHosts demoHosts).Pairwise fun a b => lessByAlias a b = true :=
  listHosts_sorted_strict demoHosts (by decide)

/-- Counterexample for C6 as stated: on a mapping with aliases `a` and
`bbb` the entries `list` prints are NOT the entries with each alias
left-padded (spaces on the left) to the width of the longest alias; the
code left-justifies, padding on the right. -/
theorem listHostsPrinted_not_leftPad :
    listHostsPrinted demoHostsPad
      ≠ (listHosts demoHostsPad).map
          fun h => { h with Alias := leftPad (maxAliasLen demoHostsPad) h.Alias } := by
  decide

/-- Claim C6 as amended: `list` pads each alias on the RIGHT (the Go
`%-*.*s` verb left-justifies) with spaces to the width of the longest
alias among the mapping entries, so every printed alias field has length
equal to the length of the longest alias. -/
theorem listHostsPrinted_pads_right (hosts : Hosts) (m : hostMessage)
    (hm : m ∈ listHostsPrinted hosts) :
    m.Alias.length = maxAliasLen hosts ∧
    ∃ m2 ∈ listHosts hosts,
      m = { m2 with
            Alias := m2.Alias
              ++ String.mk (List.replicate (maxAliasLen hosts - m2.Alias.length) ' ') } := by
  rw [listHostsPrinted] at hm
  obtain ⟨m2, hm2, rfl⟩ := List.mem_map.mp hm
  have hlen : m2.Alias.data.length ≤ maxAliasLen hosts := by
    have hmem : m2 ∈ hosts.map toHostMessage := (sortByAlias_perm _).mem_iff.mp hm2
    obtain ⟨kv, hkv, rfl⟩ := List.mem_map.mp hmem
    exact length_le_maxAliasLen hkv
  constructor
  · exact padTrunc_length_of_le hlen
  · exact ⟨m2, hm2, by rw [padTrunc_of_le hlen]⟩

/-- Witness for the amended C6 at a concrete input: in the demo
two-alias mapping the printed `a` row carries alias text of width 3,
namely `a` right-padded with two spaces. -/
theorem listHostsPrinted_pads_right_witness :
    ({ op := "list", Alias := "a  ", URL := "http://play.minio.io:9000" } : hostMessage).Alias.length
      = maxAliasLen demoHostsPad ∧
    ∃ m2 ∈ listHosts demoHostsPad,
      ({ op := "list", Alias := "a  ", URL := "http://play.minio.io:9000" } : hostMessage)
        = { m2 with
            Alias := m2.Alias
              ++ String.mk (List.replicate (maxAliasLen demoHostsPad - m2.Alias.length) ' ') } :=
  listHostsPrinted_pads_right demoHostsPad
    { op := "list", Alias := "a  ", URL := "http://play.minio.io:9000" } (by decide)

/-- Claim C9: the first positional argument is stripped of surrounding
whitespace before verb matching, so a whitespace-padded verb dispatches
exactly as the bare verb; any trimmed string other than the exact
(case-sensitive) `add`, `remove`, `list` shows help and exits. -/
theorem verb_trimmed_dispatch (s : String) (args : List String) (hosts : Hosts) :
    mainConfigHost (s :: args) hosts = mainConfigHost (trimSpace s :: args) hosts ∧
    (trimSpace s ≠ "add" → trimSpace s ≠ "remove" → trimSpace s ≠ "list" →
      mainConfigHost (s :: args) hosts = (CmdResult.helpExit, hosts)) := by
  constructor
  · simp only [mainConfigHost]
    rw [trimSpace_idem]
  · intro h1 h2 h3
    simp only [mainConfigHost]
    rw [if_neg h1, if_neg h2, if_neg h3]

/-- Witness for C9 at concrete inputs: a whitespace-padded `list`
dispatches as the bare verb, while the capitalized `List` is not
recognized. -/
theorem verb_trimmed_dispatch_witness :
    mainConfigHost [" list "] demoHosts = mainConfigHost ["list"] demoHosts ∧
    mainConfigHost ["List"] demoHosts = (CmdResult.helpExit, demoHosts) :=
  ⟨(show trimSpace " list " = "list" from by decide)
     ▸ (verb_trimmed_dispatch " list " [] demoHosts).1,
   (verb_trimmed_dispatch "List" [] demoHosts).2 (by decide) (by decide) (by decide)⟩

/-- Claim C10: the list-mode text rendering carries the access-key,
secret-key and API columns exactly when the access key or the secret key
is non-empty; the API column appears (even empty) whenever a credential
is non-empty, and is suppressed (even non-empty) when both credentials
are empty. -/
theorem list_text_renders_creds (h : hostMessage) (hop : h.op = "list") :
    ((h.AccessKey ≠ "" ∨ h.SecretKey ≠ "") →
      h.render = h.Alias ++ ": " ++ padTrunc 30 h.URL ++ "  " ++ padTrunc 20 h.AccessKey
        ++ "  " ++ padTrunc 40 h.SecretKey ++ "  " ++ truncStr 20 h.API) ∧
    (h.AccessKey = "" → h.SecretKey = "" →
      h.render = h.Alias ++ ": " ++ padTrunc 30 h.URL) := by
  constructor
  · intro hcred
    simp only [hostMessage.render, hop]
    rw [if_pos trivial, if_pos hcred]
  · intro hak hsk
    simp only [hostMessage.render, hop]
    rw [if_pos trivial, if_neg (by simp [hak, hsk])]

/-- Witness for C10 at concrete inputs: a credentialed entry renders all
columns including the API, a credential-free entry renders only alias
and URL even though its API field could be non-empty. -/
theorem list_text_renders_creds_witness :
    ({ op := "list", Alias := "s3", URL := "https://s3.amazonaws.com",
       AccessKey := "BKIKJAA5BMMU2RHO6IBB",
       SecretKey := "V8f1CwQqAcwo80UEIJEjc5gVQUSSx5ohQ9GSrr12",
       API := "S3v4" } : hostMessage).render
      = "s3" ++ ": " ++ padTrunc 30 "https://s3.amazonaws.com" ++ "  "
        ++ padTrunc 20 "BKIKJAA5BMMU2RHO6IBB" ++ "  "
        ++ padTrunc 40 "V8f1CwQqAcwo80UEIJEjc5gVQUSSx5ohQ9GSrr12" ++ "  "
        ++ truncStr 20 "S3v4" ∧
    ({ op := "list", Alias := "play", URL := "http://play.minio.io:9000",
       API := "S3v4" } : hostMessage).render
      = "play" ++ ": " ++ padTrunc 30 "http://play.minio.io:9000" :=
  ⟨(list_text_renders_creds _ rfl).1 (Or.inl (by decide)),
   (list_text_renders_creds _ rfl).2 rfl rfl⟩
